import Mathlib

/-!
Verification of the leveldb JNI binding (src/jni/leveldbjni.cc) against its
natural-language specification.

The repository source contains only the binding layer; the storage engine it
forwards to is external.  Engine behaviour is therefore modelled from the
specification (definitions marked `Modelled from the spec:`), while every
binding-level definition is a direct shallow embedding of the corresponding
JNI function in src/jni/leveldbjni.cc.
-/

namespace LevelDB

/-- Keys are opaque byte sequences; bytes are modelled as naturals.  The
default comparator is lexicographic byte comparison, which is exactly the
lexicographic order on `List Nat`. -/
abbrev Key := List Nat

/-- Values are byte sequences. -/
abbrev Value := List Nat

/-- Operation tag on an internal entry: PUT or DELETE (tombstone). -/
inductive Tag where
  | put
  | del
deriving DecidableEq

/-- Modelled from the spec: an Entry is (userKey, sequence, tag, value?);
the value is meaningless for DELETE tags. -/
structure Entry where
  userKey : Key
  seq : Nat
  tag : Tag
  value : Value
deriving DecidableEq

/-- Modelled from the spec: the logical store state.  The memtable and all
live sorted tables are collapsed into one collection of entries, because
reads consult all of them and return the newest entry by sequence number;
the next sequence number to assign is tracked alongside.  Compaction only
rewrites where entries live, never the visible mapping, so the collapsed
view covers states in which a key was previously present in a now-compacted
table. -/
structure Store where
  entries : List Entry
  nextSeq : Nat
deriving DecidableEq

/-- Modelled from the spec: among all entries for userKey k, the newest one,
i.e. the one with the greatest sequence number ("sorts by userKey ascending,
then sequence descending — lookups find the newest visible version"). -/
def newestFor (k : Key) : List Entry → Option Entry
  | [] => none
  | e :: rest =>
    let r := newestFor k rest
    if e.userKey = k then
      match r with
      | none => some e
      | some e2 => if e2.seq < e.seq then some e else some e2
    else r

/-- Modelled from the spec: Put assigns the next sequence number and adds a
PUT entry; sequence numbers are strictly increasing and never reused. -/
def Store.putKV (s : Store) (k : Key) (v : Value) : Store :=
  { entries := ⟨k, s.nextSeq, Tag.put, v⟩ :: s.entries, nextSeq := s.nextSeq + 1 }

/-- Modelled from the spec: Delete adds a tombstone entry at the next
sequence number. -/
def Store.delKV (s : Store) (k : Key) : Store :=
  { entries := ⟨k, s.nextSeq, Tag.del, []⟩ :: s.entries, nextSeq := s.nextSeq + 1 }

/-- Modelled from the spec: Get returns the value of the newest entry for the
key when its tag is PUT, and NotFound (`none`) when the newest entry is a
DELETE tombstone or no entry exists. -/
def Store.getKV (s : Store) (k : Key) : Option Value :=
  match newestFor k s.entries with
  | none => none
  | some e =>
    match e.tag with
    | Tag.put => some e.value
    | Tag.del => none

/-- Well-formedness invariant from the spec: every stored entry was assigned
a sequence number strictly below the next one to hand out. -/
def Store.Wf (s : Store) : Prop := ∀ e ∈ s.entries, e.seq < s.nextSeq

/-- The empty store. -/
def Store.empty : Store := { entries := [], nextSeq := 0 }

/-- Modelled from the spec: one operation of a WriteBatch. -/
inductive BatchOp where
  | putOp (k : Key) (v : Value)
  | delOp (k : Key)
deriving DecidableEq

/-- A WriteBatch: an ordered sequence of Put/Delete operations. -/
abbrev Batch := List BatchOp

/-- Modelled from the spec: applying one batch operation to the store. -/
def Store.applyOp (s : Store) : BatchOp → Store
  | BatchOp.putOp k v => s.putKV k v
  | BatchOp.delOp k => s.delKV k

/-- Modelled from the spec: the batch's operations are applied to the
memtable in order, sharing one contiguous sequence number range. -/
def Store.applyBatch (s : Store) (b : Batch) : Store := b.foldl Store.applyOp s

/-- Modelled from the spec: a physical WAL record holds one whole serialized
batch, and is `complete` when it was fully written with a valid checksum; a
crash mid-batch leaves a truncated (incomplete) record. -/
structure WalRecord where
  batch : Batch
  complete : Bool
deriving DecidableEq

/-- Modelled from the spec: recovery reads records sequentially, verifies
each checksum, and stops at the first corrupt or incomplete record; data
after that point is discarded. -/
def recoverBatches (w : List WalRecord) : List Batch :=
  (w.takeWhile (fun r => r.complete)).map (fun r => r.batch)

/-- Modelled from the spec: the state after restart is the initial state with
every recovered batch replayed in order. -/
def recover (init : Store) (w : List WalRecord) : Store :=
  (recoverBatches w).foldl Store.applyBatch init

/-- Keys currently live in the store (their newest entry is a PUT),
deduplicated. -/
def Store.liveKeys (s : Store) : List Key :=
  ((s.entries.map (fun e => e.userKey)).dedup).filter (fun k => (s.getKV k).isSome)

/-- Modelled from the spec: the merging iterator presents the visible
entries of the snapshot in increasing comparator order (lexicographic byte
order), one entry per userKey — the newest visible version, with DELETE
tombstones transparently skipped. -/
def Store.visibleEntries (s : Store) : List (Key × Value) :=
  (List.insertionSort (fun a b : Key => a ≤ b) s.liveKeys).map
    (fun k => (k, (s.getKV k).getD []))

/-- Modelled from the spec: an engine iterator is a position into the
snapshot's visible entries; positions at or past the end are invalid (the
iterator is not positioned at an entry). -/
structure DBIterator where
  entries : List (Key × Value)
  pos : Nat
deriving DecidableEq

/-- Modelled from the spec: NewIterator builds the merging iterator over the
snapshot; it is initially not positioned at any entry. -/
def Store.newIterator (s : Store) : DBIterator :=
  { entries := s.visibleEntries, pos := s.visibleEntries.length }

/-- Modelled from the spec: iter->Valid() — whether the iterator is
positioned at an entry. -/
def DBIterator.valid (it : DBIterator) : Bool := it.pos < it.entries.length

/-- Embedding of Java_org_tron_leveldb_DBIterator_seekToFirst
(leveldbjni.cc lines 451-460): iter->SeekToFirst() positions the iterator at
the first entry. -/
def Java_org_tron_leveldb_DBIterator_seekToFirst (it : DBIterator) : DBIterator :=
  { it with pos := 0 }

/-- Embedding of Java_org_tron_leveldb_DBIterator_seekToLast
(lines 524-535): iter->SeekToLast() positions the iterator at the last entry
(invalid when the snapshot is empty). -/
def Java_org_tron_leveldb_DBIterator_seekToLast (it : DBIterator) : DBIterator :=
  { it with pos := it.entries.length - 1 }

/-- Embedding of Java_org_tron_leveldb_DBIterator_hasNext (lines 462-471):
returns iter->Valid(). -/
def Java_org_tron_leveldb_DBIterator_hasNext (it : DBIterator) : Bool :=
  it.valid

/-- Embedding of Java_org_tron_leveldb_DBIterator_hasPrev (lines 537-548):
returns iter->Valid(). -/
def Java_org_tron_leveldb_DBIterator_hasPrev (it : DBIterator) : Bool :=
  it.valid

/-- Embedding of Java_org_tron_leveldb_DBIterator_next (lines 473-498):
copies the (key, value) entry at the current position, then advances with
iter->Next(); `none` models the undefined key()/value() access on an
invalid iterator. -/
def Java_org_tron_leveldb_DBIterator_next (it : DBIterator) :
    Option ((Key × Value) × DBIterator) :=
  match it.entries[it.pos]? with
  | none => none
  | some e => some (e, { it with pos := it.pos + 1 })

/-- Embedding of Java_org_tron_leveldb_DBIterator_peekNext (lines 500-522):
copies the (key, value) entry at the current position without moving the
iterator. -/
def Java_org_tron_leveldb_DBIterator_peekNext (it : DBIterator) :
    Option (Key × Value) :=
  it.entries[it.pos]?

/-- Embedding of Java_org_tron_leveldb_DBIterator_prev (lines 550-561):
iter->Prev(); stepping back from the first entry leaves the iterator
invalid. -/
def Java_org_tron_leveldb_DBIterator_prev (it : DBIterator) : DBIterator :=
  if it.pos = 0 then { it with pos := it.entries.length }
  else { it with pos := it.pos - 1 }

/-- Embedding of Java_org_tron_leveldb_DBIterator_peekPrev (lines 563-585):
copies the (key, value) entry at the current position without moving the
iterator. -/
def Java_org_tron_leveldb_DBIterator_peekPrev (it : DBIterator) :
    Option (Key × Value) :=
  it.entries[it.pos]?

/-- Forward traversal driver, the loop a caller runs: while hasNext, take
next; `fuel` bounds the number of steps. -/
def collectNext : Nat → DBIterator → List (Key × Value)
  | 0, _ => []
  | Nat.succ fuel, it =>
    if Java_org_tron_leveldb_DBIterator_hasNext it then
      match Java_org_tron_leveldb_DBIterator_next it with
      | some (e, it2) => e :: collectNext fuel it2
      | none => []
    else []

/-- Backward traversal driver, the loop a caller runs: while hasPrev, read
peekPrev then step with prev; `fuel` bounds the number of steps. -/
def collectPrev : Nat → DBIterator → List (Key × Value)
  | 0, _ => []
  | Nat.succ fuel, it =>
    if Java_org_tron_leveldb_DBIterator_hasPrev it then
      match Java_org_tron_leveldb_DBIterator_peekPrev it with
      | some e => e :: collectPrev fuel (Java_org_tron_leveldb_DBIterator_prev it)
      | none => []
    else []

/-- Status kinds of leveldb::Status, as distinguished by the binding's
`check` (IsNotFound / IsCorruption / IsInvalidArgument / other). -/
inductive Status where
  | ok
  | notFound
  | corruption
  | ioFailure
  | invalidArgument
deriving DecidableEq

/-- The Java exception classes the binding throws. -/
inductive JavaThrow where
  | illegalState
  | fileNotFound
  | javaIoException
  | runtime
deriving DecidableEq

/-- Embedding of `check` (lines 134-150): ok throws nothing; NotFound throws
java.io.FileNotFoundException; Corruption throws java.io.IOException; every
other non-ok status throws java.lang.RuntimeException. -/
def check : Status → Option JavaThrow
  | Status.ok => none
  | Status.notFound => some JavaThrow.fileNotFound
  | Status.corruption => some JavaThrow.javaIoException
  | _ => some JavaThrow.runtime

/-- leveldb::WriteOptions; sync defaults to false. -/
structure WriteOptions where
  sync : Bool := false
deriving DecidableEq

/-- Embedding of lines 309-310: the WriteOptions that
Java_org_tron_leveldb_DB_put___3B_3BZ hands to db->Put. -/
def put___3B_3BZ_options (sync : Bool) : WriteOptions := { sync := sync }

/-- Embedding of lines 371-372: the WriteOptions that
Java_org_tron_leveldb_DB_delete hands to db->Delete. -/
def delete_options (sync : Bool) : WriteOptions := { sync := sync }

/-- Embedding of lines 411-412: the WriteOptions that
Java_org_tron_leveldb_DB_write hands to db->Write. -/
def write_options (sync : Bool) : WriteOptions := { sync := sync }

/-- Modelled from the spec: with WriteOptions.sync = true the engine fsyncs
the WAL before the write call returns, and not otherwise. -/
def walFsyncedBeforeReturn (o : WriteOptions) : Bool := o.sync

/-- Result of one call into a binding function: the value returned to Java
(or the exception thrown), and whether the native engine was invoked at
all — on a closed handle the binding returns before touching the engine,
so the call has no effect beyond the exception. -/
structure BindingOutcome (α : Type) where
  result : Except JavaThrow α
  engineCalled : Bool

/-- Embedding of Java_org_tron_leveldb_DB_put___3B_3B (lines 266-289): a
null nativeDb handle throws IllegalStateException and returns (lines
273-276); otherwise db->Put(WriteOptions(), key, value) runs (line 282) and
the Status `st` it returns is discarded — there is no check() call on this
path, so no exception is surfaced whatever `st` is. -/
def Java_org_tron_leveldb_DB_put___3B_3B (db : Option Store) (k : Key)
    (v : Value) (st : Status) : BindingOutcome Unit :=
  match db, k, v, st with
  | none, _, _, _ => ⟨Except.error JavaThrow.illegalState, false⟩
  | some _, _, _, _ => ⟨Except.ok (), true⟩

/-- Embedding of Java_org_tron_leveldb_DB_put___3B_3BZ (lines 291-317): a
null handle throws IllegalStateException (lines 298-301); otherwise
db->Put(put___3B_3BZ_options sync, key, value) runs (lines 309-311) and the
Status `st` it returns is discarded — no check() call on this path
either. -/
def Java_org_tron_leveldb_DB_put___3B_3BZ (db : Option Store) (k : Key)
    (v : Value) (sync : Bool) (st : Status) : BindingOutcome Unit :=
  match db, k, v, sync, st with
  | none, _, _, _, _ => ⟨Except.error JavaThrow.illegalState, false⟩
  | some _, _, _, _, _ => ⟨Except.ok (), true⟩

/-- Embedding of Java_org_tron_leveldb_DB_get (lines 319-355): a null handle
throws IllegalStateException (lines 325-328); otherwise db->Get runs,
returning Status `st` and filling `v` on success; a NotFound status returns
NULL without throwing (lines 344-346); any other status goes through check()
(line 348), which throws for non-ok statuses; on ok the value is copied out
and returned. -/
def Java_org_tron_leveldb_DB_get (db : Option Store) (k : Key) (st : Status)
    (v : Value) : BindingOutcome (Option Value) :=
  match db, k with
  | none, _ => ⟨Except.error JavaThrow.illegalState, false⟩
  | some _, _ =>
    if st = Status.notFound then ⟨Except.ok none, true⟩
    else
      match check st with
      | some e => ⟨Except.error e, true⟩
      | none => ⟨Except.ok (some v), true⟩

/-- Modelled from the spec: the Status db->Get reports on a healthy read —
NotFound exactly for an absent key, ok otherwise. -/
def Store.getStatus (s : Store) (k : Key) : Status :=
  match s.getKV k with
  | none => Status.notFound
  | some _ => Status.ok

/-- Embedding of Java_org_tron_leveldb_DB_delete (lines 357-377): a null
handle throws IllegalStateException (lines 363-366); otherwise
db->Delete(delete_options sync, key) runs (lines 371-373) and the Status
`st` it returns is discarded — no check() call on this path. -/
def Java_org_tron_leveldb_DB_delete (db : Option Store) (k : Key)
    (sync : Bool) (st : Status) : BindingOutcome Unit :=
  match db, k, sync, st with
  | none, _, _, _ => ⟨Except.error JavaThrow.illegalState, false⟩
  | some _, _, _, _ => ⟨Except.ok (), true⟩

/-- Embedding of Java_org_tron_leveldb_DB_write (lines 397-415): a null
handle throws IllegalStateException (lines 403-406); otherwise
db->Write(write_options sync, batch) runs (line 413) and its Status `st`
goes through check() (line 414), which throws for every non-ok status. -/
def Java_org_tron_leveldb_DB_write (db : Option Store) (b : Batch)
    (sync : Bool) (st : Status) : BindingOutcome Unit :=
  match db, b, sync with
  | none, _, _ => ⟨Except.error JavaThrow.illegalState, false⟩
  | some _, _, _ =>
    match check st with
    | some e => ⟨Except.error e, true⟩
    | none => ⟨Except.ok (), true⟩

/-- Embedding of Java_org_tron_leveldb_DB_iterator (lines 239-255): a null
handle throws IllegalStateException (lines 244-247); otherwise
db->NewIterator(read_options) is wrapped into a new DBIterator object. -/
def Java_org_tron_leveldb_DB_iterator (db : Option Store) :
    BindingOutcome DBIterator :=
  match db with
  | none => ⟨Except.error JavaThrow.illegalState, false⟩
  | some s => ⟨Except.ok s.newIterator, true⟩

/-- Embedding of Java_org_tron_leveldb_DB_createWriteBatch (lines 379-395):
a null handle throws IllegalStateException (lines 384-387); otherwise a
fresh empty WriteBatch is allocated and wrapped. -/
def Java_org_tron_leveldb_DB_createWriteBatch (db : Option Store) :
    BindingOutcome Batch :=
  match db with
  | none => ⟨Except.error JavaThrow.illegalState, false⟩
  | some _ => ⟨Except.ok ([] : Batch), true⟩

/-- Modelled from the spec: GetProperty returns a diagnostic counter string;
the model tracks a single counter, the number of stored entries. -/
def Store.propertyValue (s : Store) (name : String) : String :=
  match name with
  | _ => toString s.entries.length

/-- Embedding of Java_org_tron_leveldb_DB_getProperty (lines 417-433): a
null handle throws IllegalStateException (lines 423-426); otherwise
db->GetProperty(name, &value) runs and the value string is returned. -/
def Java_org_tron_leveldb_DB_getProperty (db : Option Store) (name : String) :
    BindingOutcome String :=
  match db with
  | none => ⟨Except.error JavaThrow.illegalState, false⟩
  | some s => ⟨Except.ok (s.propertyValue name), true⟩

/-- Embedding of Java_org_tron_leveldb_DB_close (lines 257-264): deletes the
native DB if the handle is non-null and zeroes the handle; never throws. -/
def Java_org_tron_leveldb_DB_close (db : Option Store) :
    Except JavaThrow Unit × Option Store :=
  match db with
  | _ => (Except.ok (), none)

/-- Modelled from the spec: the outcome of DB::Open — a usable store, or
exactly one of the errors InvalidArgument, IOError, CorruptManifest (the
last being a Corruption status). -/
inductive OpenResult where
  | opened (s : Store)
  | badArgument
  | ioFailure
  | corruptManifest
deriving DecidableEq

/-- Modelled from the spec: the leveldb::Status DB::Open returns for each
outcome. -/
def openStatus : OpenResult → Status
  | OpenResult.opened _ => Status.ok
  | OpenResult.badArgument => Status.invalidArgument
  | OpenResult.ioFailure => Status.ioFailure
  | OpenResult.corruptManifest => Status.corruption

/-- Embedding of the status handling of Java_org_tron_leveldb_DB_init
(lines 208-221): an InvalidArgument status from DB::Open throws
java.io.FileNotFoundException (lines 213-215); every other status goes
through check() (line 216), and when it passes the nativeDb handle is set to
the opened DB (lines 217-218). -/
def Java_org_tron_leveldb_DB_init (r : OpenResult) :
    Except JavaThrow (Option Store) :=
  if openStatus r = Status.invalidArgument then
    Except.error JavaThrow.fileNotFound
  else
    match check (openStatus r) with
    | some e => Except.error e
    | none =>
      Except.ok (match r with
        | OpenResult.opened s => some s
        | _ => none)

/- ------------------------------------------------------------------ -/
/- Theorems.                                                          -/
/- ------------------------------------------------------------------ -/

theorem newestFor_mem {k : Key} {l : List Entry} {e : Entry}
    (h : newestFor k l = some e) : e ∈ l := by
  induction l with
  | nil => simp [newestFor] at h
  | cons a rest ih =>
    simp only [newestFor] at h
    by_cases hk : a.userKey = k
    · simp only [hk, if_true] at h
      cases hr : newestFor k rest with
      | none => simp [hr] at h; simp [h]
      | some e2 =>
        simp only [hr] at h
        by_cases hs : e2.seq < a.seq
        · simp [hs] at h; simp [h]
        · simp [hs] at h
          exact List.mem_cons_of_mem _ (ih (h ▸ hr))
    · simp only [hk, if_false] at h
      exact List.mem_cons_of_mem _ (ih h)

theorem newestFor_cons_self {k : Key} {l : List Entry} {e : Entry}
    (hk : e.userKey = k) (hseq : ∀ x ∈ l, x.seq < e.seq) :
    newestFor k (e :: l) = some e := by
  simp only [newestFor, hk, if_true]
  cases hr : newestFor k l with
  | none => rfl
  | some e2 =>
    have : e2.seq < e.seq := hseq e2 (newestFor_mem hr)
    simp [this]

/-- Claim C1: for every key k and value v, Put(k, v) followed by Get(k) on
the same open store returns v, and Delete(k) followed by Get(k) returns
NotFound, regardless of the prior contents of the store (in particular when
k was previously present in a now-compacted table). -/
theorem put_get_delete_get (s : Store) (k : Key) (v : Value) (hs : s.Wf) :
    (s.putKV k v).getKV k = some v ∧ (s.delKV k).getKV k = none := by
  constructor
  · have h := newestFor_cons_self (k := k)
      (e := ⟨k, s.nextSeq, Tag.put, v⟩) (l := s.entries) rfl
      (fun x hx => hs x hx)
    simp [Store.getKV, Store.putKV, h]
  · have h := newestFor_cons_self (k := k)
      (e := ⟨k, s.nextSeq, Tag.del, []⟩) (l := s.entries) rfl
      (fun x hx => hs x hx)
    simp [Store.getKV, Store.delKV, h]

/-- Claim C1 witness at a concrete store that already holds key [1],
mimicking a previously-present key. -/
theorem put_get_delete_get_witness :
    (Store.Wf { entries := [⟨[1], 0, Tag.put, [7]⟩], nextSeq := 1 }) ∧
    ((Store.putKV { entries := [⟨[1], 0, Tag.put, [7]⟩], nextSeq := 1 }
        [1] [9]).getKV [1] = some [9] ∧
     (Store.delKV { entries := [⟨[1], 0, Tag.put, [7]⟩], nextSeq := 1 }
        [1]).getKV [1] = none) := by
  refine ⟨?_, put_get_delete_get _ [1] [9] ?_⟩ <;>
  · intro e he
    simp only [List.mem_singleton] at he
    simp [he]

theorem takeWhile_append_incomplete (w : List WalRecord) (b : Batch) :
    (w ++ [WalRecord.mk b false]).takeWhile (fun r => r.complete)
      = w.takeWhile (fun r => r.complete) := by
  induction w with
  | nil => simp [List.takeWhile]
  | cons a rest ih =>
    cases hc : a.complete <;> simp [List.takeWhile, hc, ih]

theorem takeWhile_append_complete (w : List WalRecord) (b : Batch)
    (hw : ∀ r ∈ w, r.complete = true) :
    (w ++ [WalRecord.mk b true]).takeWhile (fun r => r.complete)
      = w ++ [WalRecord.mk b true] := by
  induction w with
  | nil => simp [List.takeWhile]
  | cons a rest ih =>
    have ha := hw a (List.mem_cons_self a rest)
    simp only [List.cons_append, List.takeWhile, ha]
    simp only [List.cons.injEq, true_and]
    exact ih (fun r hr => hw r (List.mem_cons_of_mem a hr))

/-- Claim C2: applying a batch via Write is atomic.  The batch goes to the
WAL as a single record before being applied; once that record is durable,
restart replays the whole batch after the previously durable state (every
operation visible); if the crash happens mid-batch the record is truncated
and recovery drops it, so restart shows none of the batch's operations.
`hw` states that the previously durable WAL tail is intact. -/
theorem write_batch_atomic (init : Store) (w : List WalRecord) (b : Batch)
    (hw : ∀ r ∈ w, r.complete = true) :
    recover init (w ++ [WalRecord.mk b true]) = (recover init w).applyBatch b ∧
    recover init (w ++ [WalRecord.mk b false]) = recover init w := by
  constructor
  · rw [recover, recover, recoverBatches, recoverBatches,
      takeWhile_append_complete w b hw, List.takeWhile_eq_self_iff.mpr hw,
      List.map_append, List.foldl_append]
    simp
  · rw [recover, recover, recoverBatches, recoverBatches,
      takeWhile_append_incomplete]

/-- Claim C2 witness: the spec's own scenario.  Batch {Put("x","1"),
Put("y","2")} modelled as keys [24], [25] with values [1], [2]; with the
record complete both become visible, with the record truncated by a crash
restart shows neither. -/
theorem write_batch_atomic_witness :
    (∀ r ∈ ([] : List WalRecord), r.complete = true) ∧
    (recover Store.empty [WalRecord.mk [BatchOp.putOp [24] [1], BatchOp.putOp [25] [2]] true]
        = Store.empty.applyBatch [BatchOp.putOp [24] [1], BatchOp.putOp [25] [2]] ∧
     recover Store.empty [WalRecord.mk [BatchOp.putOp [24] [1], BatchOp.putOp [25] [2]] false]
        = recover Store.empty []) ∧
    (recover Store.empty [WalRecord.mk [BatchOp.putOp [24] [1], BatchOp.putOp [25] [2]] false]).getKV [24] = none ∧
    (recover Store.empty [WalRecord.mk [BatchOp.putOp [24] [1], BatchOp.putOp [25] [2]] false]).getKV [25] = none := by
  refine ⟨by simp, ?_, by decide, by decide⟩
  have h := write_batch_atomic Store.empty []
    [BatchOp.putOp [24] [1], BatchOp.putOp [25] [2]] (by simp)
  simpa using h

/-- Claim C3: every store operation invoked after Close() — put (both
overloads), get, delete, write, iterator creation, createWriteBatch,
getProperty — fails with an IllegalState error and has no other effect:
the binding throws IllegalStateException and returns before the engine is
ever invoked. -/
theorem closed_store_rejected (k : Key) (v : Value) (b : Batch) (sync : Bool)
    (st : Status) (name : String) (vout : Value) :
    Java_org_tron_leveldb_DB_put___3B_3B none k v st
      = ⟨Except.error JavaThrow.illegalState, false⟩ ∧
    Java_org_tron_leveldb_DB_put___3B_3BZ none k v sync st
      = ⟨Except.error JavaThrow.illegalState, false⟩ ∧
    Java_org_tron_leveldb_DB_get none k st vout
      = ⟨Except.error JavaThrow.illegalState, false⟩ ∧
    Java_org_tron_leveldb_DB_delete none k sync st
      = ⟨Except.error JavaThrow.illegalState, false⟩ ∧
    Java_org_tron_leveldb_DB_write none b sync st
      = ⟨Except.error JavaThrow.illegalState, false⟩ ∧
    Java_org_tron_leveldb_DB_iterator none
      = ⟨Except.error JavaThrow.illegalState, false⟩ ∧
    Java_org_tron_leveldb_DB_createWriteBatch none
      = ⟨Except.error JavaThrow.illegalState, false⟩ ∧
    Java_org_tron_leveldb_DB_getProperty none name
      = ⟨Except.error JavaThrow.illegalState, false⟩ :=
  ⟨rfl, rfl, rfl, rfl, rfl, rfl, rfl, rfl⟩

/-- Claim C4: Get on an open store for an absent key returns NULL (the
NotFound indicator) as a valid result, with no exception raised: the engine
reports NotFound and lines 344-346 return NULL before check() could
throw. -/
theorem get_absent_returns_null (s : Store) (k : Key) (v : Value)
    (habs : s.getKV k = none) :
    Java_org_tron_leveldb_DB_get (some s) k (s.getStatus k) v
      = ⟨Except.ok none, true⟩ := by
  simp [Java_org_tron_leveldb_DB_get, Store.getStatus, habs]

/-- Claim C4 witness: on the empty store every key is absent and Get returns
NULL without an exception. -/
theorem get_absent_returns_null_witness :
    Store.empty.getKV [0] = none ∧
    Java_org_tron_leveldb_DB_get (some Store.empty) [0]
        (Store.empty.getStatus [0]) [] = ⟨Except.ok none, true⟩ :=
  ⟨rfl, get_absent_returns_null Store.empty [0] [] rfl⟩

/-- Claim C5 counterexample: an engine IOError on Put (either overload) or
on Delete is silently discarded by the binding — the call returns normally
with no exception thrown, because lines 282, 311 and 373 drop the Status
returned by db->Put / db->Delete and never run check() on it. -/
theorem engine_failure_put_delete_dropped :
    (Java_org_tron_leveldb_DB_put___3B_3B (some Store.empty) [0] [1]
        Status.ioFailure).result = Except.ok () ∧
    (Java_org_tron_leveldb_DB_put___3B_3BZ (some Store.empty) [0] [1] true
        Status.ioFailure).result = Except.ok () ∧
    (Java_org_tron_leveldb_DB_delete (some Store.empty) [0] true
        Status.ioFailure).result = Except.ok () :=
  ⟨rfl, rfl, rfl⟩

/-- Claim C5 amended: engine failures on Write(batch) are surfaced to the
caller as typed errors, and engine failures on Get other than NotFound are
surfaced as typed errors (NotFound is returned as a valid null result); but
Put and Delete discard the engine's Status, so failures there are silently
dropped rather than surfaced. -/
theorem engine_failure_surfacing (s : Store) (k : Key) (v : Value)
    (b : Batch) (sync : Bool) (vout : Value) (st : Status)
    (hst : st ≠ Status.ok) :
    (∃ e, (Java_org_tron_leveldb_DB_write (some s) b sync st).result
        = Except.error e) ∧
    (st ≠ Status.notFound →
      ∃ e, (Java_org_tron_leveldb_DB_get (some s) k st vout).result
        = Except.error e) ∧
    (Java_org_tron_leveldb_DB_put___3B_3B (some s) k v st).result
        = Except.ok () ∧
    (Java_org_tron_leveldb_DB_put___3B_3BZ (some s) k v sync st).result
        = Except.ok () ∧
    (Java_org_tron_leveldb_DB_delete (some s) k sync st).result
        = Except.ok () := by
  cases st <;> simp_all [Java_org_tron_leveldb_DB_write,
    Java_org_tron_leveldb_DB_get, Java_org_tron_leveldb_DB_put___3B_3B,
    Java_org_tron_leveldb_DB_put___3B_3BZ, Java_org_tron_leveldb_DB_delete,
    check]

/-- Claim C5 amended witness, at a Corruption status encountered during a
normal read and write. -/
theorem engine_failure_surfacing_witness :
    Status.corruption ≠ Status.ok ∧
    ((∃ e, (Java_org_tron_leveldb_DB_write (some Store.empty) [] true
        Status.corruption).result = Except.error e) ∧
     (Status.corruption ≠ Status.notFound →
       ∃ e, (Java_org_tron_leveldb_DB_get (some Store.empty) [0]
          Status.corruption []).result = Except.error e) ∧
     (Java_org_tron_leveldb_DB_put___3B_3B (some Store.empty) [0] [1]
        Status.corruption).result = Except.ok () ∧
     (Java_org_tron_leveldb_DB_put___3B_3BZ (some Store.empty) [0] [1] true
        Status.corruption).result = Except.ok () ∧
     (Java_org_tron_leveldb_DB_delete (some Store.empty) [0] true
        Status.corruption).result = Except.ok ()) :=
  ⟨by decide, engine_failure_surfacing Store.empty [0] [1] [] true []
      Status.corruption (by decide)⟩

/-- Claim C6: for Put(key, value, sync), Delete(key, sync) and Write(batch,
sync), the binding passes `sync` through as the engine's WriteOptions.sync
(lines 309-310, 371-372, 411-412), and by the engine's contract sync = true
forces the WAL fsync before the call returns. -/
theorem sync_passthrough (sync : Bool) :
    (put___3B_3BZ_options sync).sync = sync ∧
    (delete_options sync).sync = sync ∧
    (write_options sync).sync = sync ∧
    walFsyncedBeforeReturn (put___3B_3BZ_options sync) = sync ∧
    walFsyncedBeforeReturn (delete_options sync) = sync ∧
    walFsyncedBeforeReturn (write_options sync) = sync :=
  ⟨rfl, rfl, rfl, rfl, rfl, rfl⟩

/-- Claim C8: Open either sets the handle to a usable store, or fails with
exactly one of InvalidArgument, IOError, CorruptManifest, each surfaced to
the Java caller as its own distinct exception kind: InvalidArgument as
FileNotFoundException, IOError as RuntimeException, CorruptManifest (a
Corruption status) as IOException. -/
theorem open_error_taxonomy (s : Store) :
    Java_org_tron_leveldb_DB_init (OpenResult.opened s) = Except.ok (some s) ∧
    Java_org_tron_leveldb_DB_init OpenResult.badArgument
      = Except.error JavaThrow.fileNotFound ∧
    Java_org_tron_leveldb_DB_init OpenResult.ioFailure
      = Except.error JavaThrow.runtime ∧
    Java_org_tron_leveldb_DB_init OpenResult.corruptManifest
      = Except.error JavaThrow.javaIoException ∧
    (JavaThrow.fileNotFound ≠ JavaThrow.runtime ∧
     JavaThrow.fileNotFound ≠ JavaThrow.javaIoException ∧
     JavaThrow.runtime ≠ JavaThrow.javaIoException) :=
  ⟨rfl, rfl, rfl, rfl, by decide⟩

/-- Claim C9: on a validly positioned iterator, peekNext returns exactly the
entry next would return while leaving the iterator unchanged, and next
returns the entry at the current position and advances the position by one;
hence calling peekNext and then next yields the same entry twice. -/
theorem peekNext_next_agree (it : DBIterator) (hv : it.valid = true) :
    ∃ e, Java_org_tron_leveldb_DBIterator_peekNext it = some e ∧
      Java_org_tron_leveldb_DBIterator_next it
        = some (e, { it with pos := it.pos + 1 }) := by
  have hlt : it.pos < it.entries.length := by
    simpa [DBIterator.valid] using hv
  refine ⟨it.entries.get ⟨it.pos, hlt⟩, ?_, ?_⟩
  · simp [Java_org_tron_leveldb_DBIterator_peekNext,
      List.getElem?_eq_getElem hlt]
  · simp [Java_org_tron_leveldb_DBIterator_next,
      List.getElem?_eq_getElem hlt]

/-- Claim C9 witness at a concrete one-entry iterator. -/
theorem peekNext_next_agree_witness :
    (DBIterator.valid { entries := [([1], [2])], pos := 0 } = true) ∧
    (∃ e, Java_org_tron_leveldb_DBIterator_peekNext
        { entries := [([1], [2])], pos := 0 } = some e ∧
      Java_org_tron_leveldb_DBIterator_next
        { entries := [([1], [2])], pos := 0 }
        = some (e, { entries := [([1], [2])], pos := 0 + 1 })) :=
  ⟨by decide, peekNext_next_agree { entries := [([1], [2])], pos := 0 }
      (by decide)⟩

/-- Claim C10: hasNext and hasPrev return the same boolean on every open
iterator state — both simply report iter->Valid(), independent of the
iteration direction. -/
theorem hasNext_eq_hasPrev (it : DBIterator) :
    Java_org_tron_leveldb_DBIterator_hasNext it
      = Java_org_tron_leveldb_DBIterator_hasPrev it ∧
    Java_org_tron_leveldb_DBIterator_hasNext it = it.valid :=
  ⟨rfl, rfl⟩

theorem visibleEntries_strict_sorted (s : Store) :
    List.Pairwise (fun a b : Key => a < b) (s.visibleEntries.map Prod.fst) := by
  have hmap : s.visibleEntries.map Prod.fst
      = List.insertionSort (fun a b : Key => a ≤ b) s.liveKeys := by
    simp only [Store.visibleEntries, List.map_map]
    have hcomp : (Prod.fst ∘ fun k : Key => (k, (s.getKV k).getD []))
        = fun k => k := rfl
    rw [hcomp, List.map_id']
  rw [hmap]
  have hnodup : (List.insertionSort (fun a b : Key => a ≤ b) s.liveKeys).Nodup :=
    (List.perm_insertionSort _ _).nodup_iff.mpr
      (List.Nodup.filter _ (List.nodup_dedup _))
  have hsorted : List.Sorted (fun a b : Key => a ≤ b)
      (List.insertionSort (fun a b : Key => a ≤ b) s.liveKeys) :=
    List.sorted_insertionSort _ _
  exact List.Sorted.lt_of_le hsorted hnodup

theorem collectNext_eq_drop (fuel : Nat) (it : DBIterator)
    (hf : it.entries.length - it.pos ≤ fuel) :
    collectNext fuel it = it.entries.drop it.pos := by
  induction fuel generalizing it with
  | zero =>
    have hle : it.entries.length ≤ it.pos := by omega
    simp [collectNext, List.drop_eq_nil_of_le hle]
  | succ fuel ih =>
    by_cases hv : it.pos < it.entries.length
    · have hget : it.entries[it.pos]? = some it.entries[it.pos] :=
        List.getElem?_eq_getElem hv
      have hcond : Java_org_tron_leveldb_DBIterator_hasNext it = true := by
        simp [Java_org_tron_leveldb_DBIterator_hasNext, DBIterator.valid, hv]
      have hrec : collectNext fuel { entries := it.entries, pos := it.pos + 1 }
          = it.entries.drop (it.pos + 1) := by
        simpa using ih { entries := it.entries, pos := it.pos + 1 }
          (by simp; omega)
      simp only [collectNext, hcond, if_true,
        Java_org_tron_leveldb_DBIterator_next, hget]
      rw [List.drop_eq_getElem_cons hv]
      simp [hrec]
    · have hle : it.entries.length ≤ it.pos := by omega
      simp [collectNext, Java_org_tron_leveldb_DBIterator_hasNext,
        DBIterator.valid, hv, List.drop_eq_nil_of_le hle]

theorem collectPrev_invalid (fuel : Nat) (it : DBIterator)
    (h : ¬ it.pos < it.entries.length) : collectPrev fuel it = [] := by
  cases fuel <;>
    simp [collectPrev, Java_org_tron_leveldb_DBIterator_hasPrev,
      DBIterator.valid, h]

theorem collectPrev_eq_take_reverse (fuel : Nat) (l : List (Key × Value))
    (p : Nat) (hp : p < l.length) (hf : p + 1 ≤ fuel) :
    collectPrev fuel { entries := l, pos := p } = (l.take (p + 1)).reverse := by
  induction fuel generalizing p with
  | zero => omega
  | succ fuel ih =>
    have hget : l[p]? = some l[p] := List.getElem?_eq_getElem hp
    have hcond : Java_org_tron_leveldb_DBIterator_hasPrev
        { entries := l, pos := p } = true := by
      simp [Java_org_tron_leveldb_DBIterator_hasPrev, DBIterator.valid, hp]
    cases p with
    | zero =>
      have hinv : collectPrev fuel { entries := l, pos := l.length } = [] :=
        collectPrev_invalid fuel { entries := l, pos := l.length } (by simp)
      have hprev : Java_org_tron_leveldb_DBIterator_prev
          { entries := l, pos := 0 } = { entries := l, pos := l.length } := by
        simp [Java_org_tron_leveldb_DBIterator_prev]
      simp only [collectPrev, hcond, if_true,
        Java_org_tron_leveldb_DBIterator_peekPrev, hget, hprev, hinv]
      rw [List.take_succ, List.getElem?_eq_getElem hp]
      simp
    | succ q =>
      have hq : q < l.length := by omega
      have hrec := ih q hq (by omega)
      have hprev : Java_org_tron_leveldb_DBIterator_prev
          { entries := l, pos := q + 1 } = { entries := l, pos := q } := by
        simp [Java_org_tron_leveldb_DBIterator_prev]
      have htake : l.take (q + 1 + 1) = l.take (q + 1) ++ [l[q + 1]] := by
        rw [List.take_succ, List.getElem?_eq_getElem hp]
        rfl
      simp only [collectPrev, hcond, if_true,
        Java_org_tron_leveldb_DBIterator_peekPrev, hget, hprev, hrec, htake,
        List.reverse_append]
      simp

/-- Claim C7: forward iteration from SeekToFirst yields userKeys in strictly
increasing comparator order with no duplicates (a strictly `<`-ordered list
has no duplicate elements), and backward iteration from SeekToLast yields
exactly the reverse of the forward sequence. -/
theorem iterator_order (s : Store) :
    List.Pairwise (fun a b : Key => a < b)
      ((collectNext s.visibleEntries.length
        (Java_org_tron_leveldb_DBIterator_seekToFirst s.newIterator)).map
          Prod.fst) ∧
    collectPrev s.visibleEntries.length
        (Java_org_tron_leveldb_DBIterator_seekToLast s.newIterator)
      = (collectNext s.visibleEntries.length
        (Java_org_tron_leveldb_DBIterator_seekToFirst s.newIterator)).reverse := by
  have hfirst : Java_org_tron_leveldb_DBIterator_seekToFirst s.newIterator
      = { entries := s.visibleEntries, pos := 0 } := rfl
  have hlast : Java_org_tron_leveldb_DBIterator_seekToLast s.newIterator
      = { entries := s.visibleEntries, pos := s.visibleEntries.length - 1 } := rfl
  have hfwd : collectNext s.visibleEntries.length
      (Java_org_tron_leveldb_DBIterator_seekToFirst s.newIterator)
      = s.visibleEntries := by
    rw [hfirst, collectNext_eq_drop _ _ (by simp)]
    simp
  refine ⟨by rw [hfwd]; exact visibleEntries_strict_sorted s, ?_⟩
  rw [hfwd, hlast]
  cases hve : s.visibleEntries with
  | nil => rfl
  | cons a rest =>
    have hp : (a :: rest : List (Key × Value)).length - 1
        < (a :: rest).length := by simp
    have h := collectPrev_eq_take_reverse (a :: rest).length (a :: rest)
      ((a :: rest).length - 1) hp (by simp)
    rw [h]
    congr 1
    have : (a :: rest).length - 1 + 1 = (a :: rest).length := by simp
    rw [this, List.take_length]

end LevelDB
